import Mathlib

/-!
# Verification of the Tecton access-policy reconciler

A shallow embedding of the access-policy resource of the
`terraform-provider-tecton` repository (file `access_policy_resource.go`,
package `provider`) together with proofs of the specified properties.

Modelling conventions:
* `types.String` values are modelled by their `ValueString`; `types.Bool`
  is modelled as `Option Bool` (`none` = null, `some b` = known `b`), so Go
  struct comparison on `types.Bool` is `Option` equality and `ValueBool()`
  is `Option.getD false`.
* Go `nil` slices are modelled as `[]`, Go maps as association lists
  (`List (String × List String)`); a Go map never holds a duplicate key,
  which appears as a `Nodup` hypothesis where a proof needs it.
* `slices.SortFunc` from `golang.org/x/exp/slices` is embedded in full as
  its pattern-defeating quicksort (`pdqsortCmpFunc` and helpers); loops are
  encoded by structural recursion, with a fuel parameter where the loop
  variable alone does not structurally decrease — the stated fuel bounds
  make the fuel-exhausted branches unreachable.
* A call to `ModifyRole` is modelled as a `Mutation` record; the functions
  that drive the backend are modelled twice: once as the list of mutation
  calls they issue when every call succeeds (`UpdateWorkspace`,
  `UpdateAccessPolicy`), and once relative to an oracle
  `ok : Mutation → Bool` deciding which calls succeed
  (`UpdateWorkspaceRun`, `UpdateAccessPolicyRun`), mirroring the Go
  control flow that returns the first error immediately.
-/

/-- The valid roles, in order of increasing power
(`var validRoles = []string{"viewer", "operator", "editor", "owner"}`). -/
def validRoles : List String := ["viewer", "operator", "editor", "owner"]

/-- The `roleToLevel` map built in `GetFromTecton`: each valid role is mapped
to its index in `validRoles`; any other string is absent. -/
def roleToLevel (role : String) : Option Nat :=
  validRoles.indexOf? role

/-- The comparison closure `cmp` defined inside `GetFromTecton`: compares two
roles by level, and returns `0` as soon as either side is not a valid role. -/
def cmpRoles (lhs rhs : String) : Int :=
  match roleToLevel lhs, roleToLevel rhs with
  | some lhsLevel, some rhsLevel => (lhsLevel : Int) - (rhsLevel : Int)
  | _, _ => 0

/-- `data[i]` on a Go slice. The sort routines below only ever index within
bounds, so the `getD` default is never observed. -/
def dget (data : List String) (i : Nat) : String :=
  (data[i]?).getD ""

/-- The parallel assignment `data[i], data[j] = data[j], data[i]`: both reads
happen before both writes. -/
def dswap (data : List String) (i j : Nat) : List String :=
  (data.set i (dget data j)).set j (dget data i)

/-- The inner loop of `insertionSortCmpFunc` from `golang.org/x/exp/slices`:
`data[j]` moves left while `j > a` and it compares strictly below its left
neighbour. Structural recursion on `j` replaces the `j--` loop. -/
def insertionSortInner : List String → Nat → Nat → List String
  | data, 0, _ => data
  | data, j+1, a =>
    if a < j + 1 ∧ cmpRoles (dget data (j+1)) (dget data j) < 0 then
      insertionSortInner (dswap data (j+1) j) j a
    else data

/-- The outer loop of `insertionSortCmpFunc`: `i` runs from `a+1` while
`i < b`. `fuel` bounds the iteration count; `b - a` suffices, so the fuel is
never exhausted on the calls made here. -/
def insertionSortLoop : List String → Nat → Nat → Nat → Nat → List String
  | data, _, _, _, 0 => data
  | data, a, b, i, fuel+1 =>
    if i < b then insertionSortLoop (insertionSortInner data i a) a b (i+1) fuel
    else data

/-- `insertionSortCmpFunc(data, a, b, cmp)`: sorts `data[a:b]` by insertion. -/
def insertionSortCmpFunc (data : List String) (a b : Nat) : List String :=
  insertionSortLoop data a b (a+1) (b - a)

/-- `siftDownCmpFunc(data, lo, hi, first, cmp)`: one sift-down of the heap
rooted at `root` (Go's `lo`); `fuel` bounds the descent (`hi + 1` suffices). -/
def siftDownCmpFunc : List String → Nat → Nat → Nat → Nat → List String
  | data, _, _, _, 0 => data
  | data, root, hi, first, fuel+1 =>
    let child := 2 * root + 1
    if child ≥ hi then data
    else
      let child :=
        if child + 1 < hi ∧
            cmpRoles (dget data (first+child)) (dget data (first+child+1)) < 0 then
          child + 1
        else child
      if cmpRoles (dget data (first+root)) (dget data (first+child)) < 0 then
        siftDownCmpFunc (dswap data (first+root) (first+child)) child hi first fuel
      else data

/-- The heap-building loop of `heapSortCmpFunc`: `i` runs from `(hi-1)/2`
down to `0` inclusive. -/
def heapSortBuild : List String → Nat → Nat → Nat → List String
  | data, 0, hi, first => siftDownCmpFunc data 0 hi first (hi + 1)
  | data, i+1, hi, first =>
    heapSortBuild (siftDownCmpFunc data (i+1) hi first (hi + 1)) i hi first

/-- The pop loop of `heapSortCmpFunc`: `i` runs from `hi-1` down to `0`;
each step swaps the top to the end and sifts down on the shrunk heap. For
`hi = 0` the single Nat-truncated iteration is a self-swap followed by a
sift-down over an empty range, i.e. a no-op, matching the int loop that does
not run. -/
def heapSortPop : List String → Nat → Nat → List String
  | data, 0, first => siftDownCmpFunc (dswap data first first) 0 0 first 1
  | data, i+1, first =>
    heapSortPop (siftDownCmpFunc (dswap data first (first+i+1)) 0 (i+1) first (i+2)) i first

/-- `heapSortCmpFunc(data, a, b, cmp)`. -/
def heapSortCmpFunc (data : List String) (a b : Nat) : List String :=
  let first := a
  let hi := b - a
  heapSortPop (heapSortBuild data ((hi - 1) / 2) hi first) (hi - 1) first

/-- `xorshift.Next()`: the xorshift PRNG used by `breakPatternsCmpFunc`, a
`uint64` modelled as a `Nat` reduced mod `2^64` where overflow matters. -/
def xorshiftNext (r : Nat) : Nat :=
  let r := (r ^^^ (r <<< 13)) % (2 ^ 64)
  let r := r ^^^ (r >>> 7)
  let r := (r ^^^ (r <<< 17)) % (2 ^ 64)
  r

/-- `bits.Len(uint(n))`: the number of bits required to represent `n`. -/
def bitsLen (n : Nat) : Nat :=
  if n = 0 then 0 else Nat.log2 n + 1

/-- `nextPowerOfTwo(length) = 1 << bits.Len(uint(length))`. -/
def nextPowerOfTwo (length : Nat) : Nat :=
  1 <<< bitsLen length

/-- The three-iteration loop of `breakPatternsCmpFunc`: each step draws the
next xorshift value, masks it by `modulus - 1`, wraps it below `length`, and
swaps `data[idx+i]` with `data[a+other]`. -/
def breakPatternsLoop : List String → Nat → Nat → Nat → Nat → Nat → Nat → List String
  | data, _, _, _, _, _, 0 => data
  | data, a, length, modulus, idx, random, cnt+1 =>
    let random := xorshiftNext random
    let other := random &&& (modulus - 1)
    let other := if other ≥ length then other - length else other
    breakPatternsLoop (dswap data idx (a + other)) a length modulus (idx+1) random cnt

/-- `breakPatternsCmpFunc(data, a, b, cmp)`: scatters three elements around
the midpoint using an xorshift PRNG seeded with the length. -/
def breakPatternsCmpFunc (data : List String) (a b : Nat) : List String :=
  let length := b - a
  if length ≥ 8 then
    breakPatternsLoop data a length (nextPowerOfTwo length)
      (a + (length/4)*2 - 1) length 3
  else data

/-- The `sortedHint` values of the Go sort. -/
inductive SortedHint where
  | increasing
  | decreasing
  | unknown
deriving DecidableEq, Repr

/-- `order2CmpFunc`: returns `(x, y, swaps)` with `x, y = b, a` and the swap
counter bumped when `data[b]` compares below `data[a]`. -/
def order2CmpFunc (data : List String) (a b swaps : Nat) : Nat × Nat × Nat :=
  if cmpRoles (dget data b) (dget data a) < 0 then (b, a, swaps + 1) else (a, b, swaps)

/-- `medianCmpFunc`: the index among `a`, `b`, `c` holding the median value,
threading the swap counter. -/
def medianCmpFunc (data : List String) (a b c swaps : Nat) : Nat × Nat :=
  let (a1, b1, s1) := order2CmpFunc data a b swaps
  let (b2, _, s2) := order2CmpFunc data b1 c s1
  let (_, b3, s3) := order2CmpFunc data a1 b2 s2
  (b3, s3)

/-- `medianAdjacentCmpFunc`: the median of `data[a-1]`, `data[a]`,
`data[a+1]`. -/
def medianAdjacentCmpFunc (data : List String) (a swaps : Nat) : Nat × Nat :=
  medianCmpFunc data (a-1) a (a+1) swaps

/-- `choosePivotCmpFunc(data, a, b, cmp)`: for ranges of at least 8 elements
the median of three samples (Tukey ninther beyond 50), with a sortedness
hint derived from the swap count (`0` → increasing, `12` → decreasing). -/
def choosePivotCmpFunc (data : List String) (a b : Nat) : Nat × SortedHint :=
  let l := b - a
  let i := a + l/4*1
  let j := a + l/4*2
  let k := a + l/4*3
  let (j2, swaps) :=
    if l ≥ 8 then
      if l ≥ 50 then
        let (i1, s1) := medianAdjacentCmpFunc data i 0
        let (j1, s2) := medianAdjacentCmpFunc data j s1
        let (k1, s3) := medianAdjacentCmpFunc data k s2
        medianCmpFunc data i1 j1 k1 s3
      else medianCmpFunc data i j k 0
    else (j, 0)
  if swaps = 0 then (j2, SortedHint.increasing)
  else if swaps = 12 then (j2, SortedHint.decreasing)
  else (j2, SortedHint.unknown)

/-- The loop of `reverseRangeCmpFunc`: swap `i` and `j` moving inward. -/
def reverseRangeLoop : List String → Nat → Nat → Nat → List String
  | data, _, _, 0 => data
  | data, i, j, fuel+1 =>
    if i < j then reverseRangeLoop (dswap data i j) (i+1) (j-1) fuel
    else data

/-- `reverseRangeCmpFunc(data, a, b, cmp)`. -/
def reverseRangeCmpFunc (data : List String) (a b : Nat) : List String :=
  reverseRangeLoop data a (b-1) b

/-- The scan of `partialInsertionSortCmpFunc`: advance `i` while the element
does not compare below its left neighbour. -/
def partialInsertionScan : List String → Nat → Nat → Nat → Nat
  | _, i, _, 0 => i
  | data, i, b, fuel+1 =>
    if i < b ∧ ¬(cmpRoles (dget data i) (dget data (i-1)) < 0) then
      partialInsertionScan data (i+1) b fuel
    else i

/-- The leftward shift of `partialInsertionSortCmpFunc`: `j` runs down while
`j ≥ 1` and `data[j]` compares below `data[j-1]`. -/
def partialShiftLeft : List String → Nat → List String
  | data, 0 => data
  | data, j+1 =>
    if cmpRoles (dget data (j+1)) (dget data j) < 0 then
      partialShiftLeft (dswap data (j+1) j) j
    else data

/-- The rightward shift of `partialInsertionSortCmpFunc`: `j` runs up while
`j < b` and `data[j]` compares below `data[j-1]`. -/
def partialShiftRight : List String → Nat → Nat → Nat → List String
  | data, _, _, 0 => data
  | data, j, b, fuel+1 =>
    if j < b ∧ cmpRoles (dget data j) (dget data (j-1)) < 0 then
      partialShiftRight (dswap data j (j-1)) (j+1) b fuel
    else data

/-- The step loop of `partialInsertionSortCmpFunc`: up to `maxSteps = 5`
adjacent out-of-order pairs are repaired; arrays shorter than
`shortestShifting = 50` give up after the first unsorted pair. Returns the
data and whether the range ended up sorted. -/
def partialInsertionSortSteps : List String → Nat → Nat → Nat → Nat → List String × Bool
  | data, _, _, _, 0 => (data, false)
  | data, a, b, i, steps+1 =>
    let i := partialInsertionScan data i b (b + 1 - i)
    if i = b then (data, true)
    else if b - a < 50 then (data, false)
    else
      let data := dswap data i (i-1)
      let data := if i - a ≥ 2 then partialShiftLeft data (i-1) else data
      let data := if b - i ≥ 2 then partialShiftRight data (i+1) b (b - i) else data
      partialInsertionSortSteps data a b i steps

/-- `partialInsertionSortCmpFunc(data, a, b, cmp)`. -/
def partialInsertionSortCmpFunc (data : List String) (a b : Nat) : List String × Bool :=
  partialInsertionSortSteps data a b (a+1) 5

/-- The `i`-advancing scan of `partitionCmpFunc`: while `i ≤ j` and
`data[i]` compares below the pivot `data[a]`. -/
def partitionScanLt : List String → Nat → Nat → Nat → Nat → Nat
  | _, _, i, _, 0 => i
  | data, a, i, j, fuel+1 =>
    if i ≤ j ∧ cmpRoles (dget data i) (dget data a) < 0 then
      partitionScanLt data a (i+1) j fuel
    else i

/-- The `j`-decreasing scan of `partitionCmpFunc`: while `i ≤ j` and
`data[j]` does not compare below the pivot `data[a]`. -/
def partitionScanGe : List String → Nat → Nat → Nat → Nat → Nat
  | _, _, _, j, 0 => j
  | data, a, i, j, fuel+1 =>
    if i ≤ j ∧ ¬(cmpRoles (dget data j) (dget data a) < 0) then
      partitionScanGe data a i (j-1) fuel
    else j

/-- The main loop of `partitionCmpFunc`: scan, and while `i ≤ j` swap the
out-of-place pair and move both indices inward. Returns the data and the
final `j`. -/
def partitionLoop : List String → Nat → Nat → Nat → Nat → List String × Nat
  | data, _, _, j, 0 => (data, j)
  | data, a, i, j, fuel+1 =>
    let i := partitionScanLt data a i j (j + 2 - i)
    let j := partitionScanGe data a i j (j + 1)
    if i > j then (data, j)
    else partitionLoop (dswap data i j) a (i+1) (j-1) fuel

/-- `partitionCmpFunc(data, a, b, pivot, cmp)`: moves the pivot to `data[a]`,
partitions `data[a+1:b]` around it, places the pivot at the returned index,
and reports whether the range was already partitioned. -/
def partitionCmpFunc (data : List String) (a b pivot : Nat) : List String × Nat × Bool :=
  let data := dswap data a pivot
  let i := a + 1
  let j := b - 1
  let i2 := partitionScanLt data a i j (j + 2 - i)
  let j2 := partitionScanGe data a i2 j (j + 1)
  if i2 > j2 then
    (dswap data j2 a, j2, true)
  else
    let data := dswap data i2 j2
    let r := partitionLoop data a (i2+1) (j2-1) b
    (dswap r.1 r.2 a, r.2, false)

/-- The `i`-advancing scan of `partitionEqualCmpFunc`: while `i ≤ j` and the
pivot `data[a]` does not compare below `data[i]`. -/
def partitionEqScanLe : List String → Nat → Nat → Nat → Nat → Nat
  | _, _, i, _, 0 => i
  | data, a, i, j, fuel+1 =>
    if i ≤ j ∧ ¬(cmpRoles (dget data a) (dget data i) < 0) then
      partitionEqScanLe data a (i+1) j fuel
    else i

/-- The `j`-decreasing scan of `partitionEqualCmpFunc`: while `i ≤ j` and
the pivot `data[a]` compares below `data[j]`. -/
def partitionEqScanGt : List String → Nat → Nat → Nat → Nat → Nat
  | _, _, _, j, 0 => j
  | data, a, i, j, fuel+1 =>
    if i ≤ j ∧ cmpRoles (dget data a) (dget data j) < 0 then
      partitionEqScanGt data a i (j-1) fuel
    else j

/-- The loop of `partitionEqualCmpFunc`; returns the data and the final `i`. -/
def partitionEqualLoop : List String → Nat → Nat → Nat → Nat → List String × Nat
  | data, _, i, _, 0 => (data, i)
  | data, a, i, j, fuel+1 =>
    let i := partitionEqScanLe data a i j (j + 2 - i)
    let j := partitionEqScanGt data a i j (j + 1)
    if i > j then (data, i)
    else partitionEqualLoop (dswap data i j) a (i+1) (j-1) fuel

/-- `partitionEqualCmpFunc(data, a, b, pivot, cmp)`: gathers elements equal
to the pivot at the front, returning the first index of the strictly-greater
suffix. -/
def partitionEqualCmpFunc (data : List String) (a b pivot : Nat) : List String × Nat :=
  let data := dswap data a pivot
  partitionEqualLoop data a (a+1) (b-1) b

/-- `pdqsortCmpFunc(data, a, b, limit, cmp)`: the pattern-defeating quicksort
behind `slices.SortFunc`. Ranges of at most `maxInsertion = 12` elements go
to the insertion sort; `limit` exhaustion falls back to heapsort; otherwise
a pivot is chosen, the range partitioned, the shorter side sorted by
recursion and the longer side by iteration. The iteration state
`(wasBalanced, wasPartitioned)` mirrors the Go loop variables; `fuel` bounds
the total loop-plus-recursion depth (every continuation strictly shrinks
`b - a`, so `b - a + 1` suffices and the fuel is never exhausted on the
calls made here). -/
def pdqsortCmpFunc : List String → Nat → Nat → Nat → Bool → Bool → Nat → List String
  | data, _, _, _, _, _, 0 => data
  | data, a, b, limit, wasBalanced, wasPartitioned, fuel+1 =>
    let length := b - a
    if length ≤ 12 then insertionSortCmpFunc data a b
    else if limit = 0 then heapSortCmpFunc data a b
    else
      let (data, limit) :=
        if wasBalanced = false then (breakPatternsCmpFunc data a b, limit - 1)
        else (data, limit)
      let (pivot, hint) := choosePivotCmpFunc data a b
      let (data, pivot, hint) :=
        if hint = SortedHint.decreasing then
          (reverseRangeCmpFunc data a b, (b - 1) - (pivot - a), SortedHint.increasing)
        else (data, pivot, hint)
      let psort :=
        if wasBalanced = true ∧ wasPartitioned = true ∧ hint = SortedHint.increasing then
          partialInsertionSortCmpFunc data a b
        else (data, false)
      if psort.2 = true then psort.1
      else
        let data := psort.1
        if 0 < a ∧ ¬(cmpRoles (dget data (a-1)) (dget data pivot) < 0) then
          let r := partitionEqualCmpFunc data a b pivot
          pdqsortCmpFunc r.1 r.2 b limit wasBalanced wasPartitioned fuel
        else
          let pr := partitionCmpFunc data a b pivot
          let mid := pr.2.1
          let leftLen := mid - a
          let rightLen := b - mid
          let balanceThreshold := length / 8
          let wb := decide (Nat.min leftLen rightLen ≥ balanceThreshold)
          if leftLen < rightLen then
            pdqsortCmpFunc (pdqsortCmpFunc pr.1 a mid limit true true fuel)
              (mid+1) b limit wb pr.2.2 fuel
          else
            pdqsortCmpFunc (pdqsortCmpFunc pr.1 (mid+1) b limit true true fuel)
              a mid limit wb pr.2.2 fuel

/-- `slices.SortFunc(roles, cmp)` from `golang.org/x/exp/slices`:
`pdqsortCmpFunc(roles, 0, len(roles), bits.Len(uint(len(roles))), cmp)`. -/
def sortRoles (l : List String) : List String :=
  pdqsortCmpFunc l 0 l.length (bitsLen l.length) true true (l.length + 1)

/-- `tectonGetRoleAssignmentSource`: an assignment source (e.g. DIRECT) in
the JSON output of `tecton access-control get-roles`. -/
structure tectonGetRoleAssignmentSource where
  AssignmentType : String
deriving DecidableEq, Repr

/-- `tectonGetRolesRoleGranted`: a single role (e.g. "owner") in the JSON
output of `tecton access-control get-roles`. -/
structure tectonGetRolesRoleGranted where
  Role : String
  AssignmentSources : List tectonGetRoleAssignmentSource
deriving DecidableEq, Repr

/-- `tectonGetRolesPolicy`: a policy for a single workspace (or organization)
in the JSON output of `tecton access-control get-roles`. -/
structure tectonGetRolesPolicy where
  ResourceType : String
  WorkspaceName : String
  RolesGranted : List tectonGetRolesRoleGranted
deriving DecidableEq, Repr

/-- `accessPolicyResourceModel`: the resource schema data. `types.String`
fields are modelled by their `ValueString`; the `types.Bool` field `Admin` is
modelled as `Option Bool` — `none` is the null value (attribute absent, the
zero value of `types.Bool`), `some b` is the known value `b`, so that Go
struct equality on `types.Bool` is `Option` equality and `ValueBool()` is
`Option.getD false`; the unknown state cannot reach this resource's apply
path. The `workspaces` map is an association list. -/
structure accessPolicyResourceModel where
  ID : String
  LastUpdated : String
  UserID : String
  ServiceAccountID : String
  Admin : Option Bool
  AllWorkspaces : List String
  Workspaces : List (String × List String)
deriving DecidableEq, Repr

/-- The Go zero value of `accessPolicyResourceModel` (`var state
accessPolicyResourceModel`): null strings read as `""`, the `Admin`
attribute is the null `types.Bool`, nil slices and maps are empty. -/
def emptyModel : accessPolicyResourceModel :=
  { ID := "", LastUpdated := "", UserID := "", ServiceAccountID := ""
    Admin := none, AllWorkspaces := [], Workspaces := [] }

/-- `state.Workspaces[ws]` on a Go map: the entry for `ws`, or the zero
value (nil slice, i.e. `[]`) when the key is absent. -/
def lookupRoles (m : List (String × List String)) (ws : String) : List String :=
  match m.find? (fun p => p.1 == ws) with
  | some p => p.2
  | none => []

/-- `state.Workspaces[name] = append(state.Workspaces[name], role)`:
appends `role` to the entry for `name`, creating the entry if absent. -/
def insertRole (m : List (String × List String)) (ws role : String) :
    List (String × List String) :=
  match m with
  | [] => [(ws, [role])]
  | p :: rest =>
    if p.1 == ws then (p.1, p.2 ++ [role]) :: rest else p :: insertRole rest ws role

/-- The body of the inner loop of `GetFromTecton`'s aggregation: one
`roleGranted` record of one `policy` is folded into the state. -/
def applyRoleGranted (st : accessPolicyResourceModel) (resourceType wsName : String)
    (rg : tectonGetRolesRoleGranted) : accessPolicyResourceModel :=
  if resourceType == "ORGANIZATION" then
    if rg.Role == "admin" then { st with Admin := some true }
    else { st with AllWorkspaces := st.AllWorkspaces ++ [rg.Role] }
  else if resourceType == "WORKSPACE" then
    { st with Workspaces := insertRole st.Workspaces wsName rg.Role }
  else st

/-- The outer loop of `GetFromTecton`'s aggregation: every granted role of
one policy entry is folded into the state. -/
def applyPolicy (st : accessPolicyResourceModel) (p : tectonGetRolesPolicy) :
    accessPolicyResourceModel :=
  p.RolesGranted.foldl (fun s rg => applyRoleGranted s p.ResourceType p.WorkspaceName rg) st

/-- `GetFromTecton` after a successful read and JSON parse (`policies` is the
parsed output): clears the role fields, aggregates the grant records, sorts
each role list, and reports `len(policies) > 0`. -/
def GetFromTecton (state : accessPolicyResourceModel)
    (policies : List tectonGetRolesPolicy) : accessPolicyResourceModel × Bool :=
  let cleared := { state with Admin := some false, AllWorkspaces := [], Workspaces := [] }
  let agg := policies.foldl applyPolicy cleared
  let sorted := { agg with
    AllWorkspaces := sortRoles agg.AllWorkspaces,
    Workspaces := agg.Workspaces.map (fun p => (p.1, sortRoles p.2)) }
  (sorted, decide (0 < policies.length))

/-- One call to `ModifyRole`: the arguments of the mutation issued against
the backend. `grant = true` assigns the role, `grant = false` unassigns it;
`workspace = ""` denotes the organization-wide (baseline) scope. -/
structure Mutation where
  userID : String
  serviceAccountID : String
  role : String
  workspace : String
  grant : Bool
deriving DecidableEq, Repr

/-- `SliceDifference`: returns elements that are in `a` that are not in `b`. -/
def SliceDifference (a b : List String) : List String :=
  a.filter (fun x => !b.contains x)

/-- `UpdateWorkspace` as the list of `ModifyRole` calls it issues when every
call succeeds: first the roles to be added (grants), then the roles to be
deleted (revokes). -/
def UpdateWorkspace (userID serviceAccountID workspace : String)
    (planRoles stateRoles : List String) : List Mutation :=
  (SliceDifference planRoles stateRoles).map
    (fun role => ⟨userID, serviceAccountID, role, workspace, true⟩)
  ++ (SliceDifference stateRoles planRoles).map
    (fun role => ⟨userID, serviceAccountID, role, workspace, false⟩)

/-- `UpdateAccessPolicy` as the list of `ModifyRole` calls it issues when
every call succeeds: the admin toggle, then the `all_workspaces` scope, then
every workspace of the plan, then every workspace of the state that the plan
does not mention (`handledWorkspaces` holds exactly the plan's keys once the
first loop is done). -/
def UpdateAccessPolicy (plan state : accessPolicyResourceModel) : List Mutation :=
  (if plan.Admin != state.Admin then
    [⟨plan.UserID, plan.ServiceAccountID, "admin", "", plan.Admin.getD false⟩]
  else [])
  ++ UpdateWorkspace plan.UserID plan.ServiceAccountID "" plan.AllWorkspaces state.AllWorkspaces
  ++ plan.Workspaces.flatMap (fun p =>
      UpdateWorkspace plan.UserID plan.ServiceAccountID p.1 p.2 (lookupRoles state.Workspaces p.1))
  ++ (state.Workspaces.filter
        (fun p => !(plan.Workspaces.any (fun q => q.1 == p.1)))).flatMap (fun p =>
      UpdateWorkspace plan.UserID plan.ServiceAccountID p.1 (lookupRoles plan.Workspaces p.1) p.2)

/-- A mutation that targets the unscoped `admin` capability: role `"admin"`
with the empty workspace name. -/
def isAdminMutation (m : Mutation) : Bool :=
  m.role == "admin" && m.workspace == ""

/-- The outcome of `Create`. -/
inductive CreateOutcome where
  | alreadyExists
  | created
deriving DecidableEq, Repr

/-- The state `Create` hands to its initial `GetFromTecton` call: a zero
model carrying only the plan's identifiers. -/
def createFetchState (plan : accessPolicyResourceModel) : accessPolicyResourceModel :=
  { emptyModel with UserID := plan.UserID, ServiceAccountID := plan.ServiceAccountID }

/-- `Create` after a successful fetch (`policies` is the parsed backend
output): fails with an Already Exists error and no mutations when grants are
already present, otherwise reconciles the plan from an empty state. -/
def Create (plan : accessPolicyResourceModel) (policies : List tectonGetRolesPolicy) :
    CreateOutcome × List Mutation :=
  let fetched := GetFromTecton (createFetchState plan) policies
  if fetched.2 then (CreateOutcome.alreadyExists, [])
  else (CreateOutcome.created, UpdateAccessPolicy plan (createFetchState plan))

/-- The sequence of `ModifyRole` calls actually attempted when executing a
given call list against an oracle `ok` deciding which backend calls succeed:
calls run in order, the first failing call is the last one attempted, and it
is returned as the error. -/
def runMutations (ok : Mutation → Bool) : List Mutation → List Mutation × Option Mutation
  | [] => ([], none)
  | m :: ms =>
    if ok m then
      let r := runMutations ok ms
      (m :: r.1, r.2)
    else ([m], some m)

/-- Sequencing of two backend interactions in the Go error-propagation
style: when the first step ends in an error, the second step never runs and
the error is returned at once; otherwise the attempted calls accumulate. -/
def seqRun (r1 r2 : List Mutation × Option Mutation) : List Mutation × Option Mutation :=
  match r1.2 with
  | some e => (r1.1, some e)
  | none => (r1.1 ++ r2.1, r2.2)

/-- One `ModifyRole` call against the oracle: the call is attempted, and it
is returned as the error when the backend rejects it. -/
def ModifyRoleRun (ok : Mutation → Bool) (userID serviceAccountID role workspace : String)
    (grant : Bool) : List Mutation × Option Mutation :=
  let m : Mutation := ⟨userID, serviceAccountID, role, workspace, grant⟩
  if ok m then ([m], none) else ([m], some m)

/-- One of the two `for _, role := range ...` loops in `UpdateWorkspace`:
`ModifyRole` is called for every role in order with the fixed `grant`
direction, and the loop returns the first error immediately. -/
def runRoles (ok : Mutation → Bool) (userID serviceAccountID workspace : String)
    (grant : Bool) : List String → List Mutation × Option Mutation
  | [] => ([], none)
  | role :: rest =>
    seqRun (ModifyRoleRun ok userID serviceAccountID role workspace grant)
      (runRoles ok userID serviceAccountID workspace grant rest)

/-- `UpdateWorkspace` against the oracle: the grant loop runs first and its
error is returned immediately; only when every grant succeeded does the
revoke loop run. -/
def UpdateWorkspaceRun (ok : Mutation → Bool) (userID serviceAccountID workspace : String)
    (planRoles stateRoles : List String) : List Mutation × Option Mutation :=
  seqRun
    (runRoles ok userID serviceAccountID workspace true
      (SliceDifference planRoles stateRoles))
    (runRoles ok userID serviceAccountID workspace false
      (SliceDifference stateRoles planRoles))

/-- One of the two workspace loops of `UpdateAccessPolicy` against the
oracle: each triple `(workspace, planRoles, stateRoles)` is handed to
`UpdateWorkspaceRun` in order, and the first error is returned immediately. -/
def runScopes (ok : Mutation → Bool) (userID serviceAccountID : String) :
    List (String × List String × List String) → List Mutation × Option Mutation
  | [] => ([], none)
  | (ws, planRoles, stateRoles) :: rest =>
    seqRun (UpdateWorkspaceRun ok userID serviceAccountID ws planRoles stateRoles)
      (runScopes ok userID serviceAccountID rest)

/-- `UpdateAccessPolicy` against the oracle, mirroring the Go control flow:
admin toggle, then the `all_workspaces` scope, then the plan's workspaces,
then the state-only workspaces; every error aborts the pass at once and is
surfaced unchanged. -/
def UpdateAccessPolicyRun (ok : Mutation → Bool) (plan state : accessPolicyResourceModel) :
    List Mutation × Option Mutation :=
  seqRun
    (if plan.Admin != state.Admin then
      ModifyRoleRun ok plan.UserID plan.ServiceAccountID "admin" "" (plan.Admin.getD false)
    else ([], none))
    (seqRun
      (UpdateWorkspaceRun ok plan.UserID plan.ServiceAccountID ""
        plan.AllWorkspaces state.AllWorkspaces)
      (seqRun
        (runScopes ok plan.UserID plan.ServiceAccountID
          (plan.Workspaces.map (fun p => (p.1, p.2, lookupRoles state.Workspaces p.1))))
        (runScopes ok plan.UserID plan.ServiceAccountID
          ((state.Workspaces.filter
              (fun p => !(plan.Workspaces.any (fun q => q.1 == p.1)))).map
            (fun p => (p.1, lookupRoles plan.Workspaces p.1, p.2))))))

/-- Modelled from the spec: the external Mutate interface (spec section 6,
`setRole`) applied to the role set the backend holds for one scope — a grant
adds the single role to the set, a revoke removes it. This backend state is
not code of the repository; only the mutation sequences acting on it are. -/
def applyMutation (held : List String) (m : Mutation) : List String :=
  if m.grant then
    if held.contains m.role then held else held ++ [m.role]
  else
    held.filter (fun r => r != m.role)

/-- The role set the backend holds for one scope after a sequence of
mutation calls. -/
def applyMutations (held : List String) (ms : List Mutation) : List String :=
  ms.foldl applyMutation held

/-- The three role-carrying fields of the model, the only fields
`GetFromTecton`'s aggregation reads or writes. -/
def roleFields (st : accessPolicyResourceModel) :
    Option Bool × List String × List (String × List String) :=
  (st.Admin, st.AllWorkspaces, st.Workspaces)

/-! Concrete sample values used by the witness theorems. -/

/-- A sample backend response: one workspace-scoped viewer grant. -/
def sampleResponse : List tectonGetRolesPolicy :=
  [⟨"WORKSPACE", "dev", [⟨"viewer", [⟨"DIRECT"⟩]⟩]⟩]

/-- A sample state carrying stale role fields. -/
def sampleStale : accessPolicyResourceModel :=
  { emptyModel with
    UserID := "u", Admin := some true, AllWorkspaces := ["owner"],
    Workspaces := [("dev", ["editor"])] }

/-- A sample state with empty role fields. -/
def sampleFresh : accessPolicyResourceModel :=
  { emptyModel with UserID := "u" }

/-- The desired policy of the spec's end-to-end scenario. -/
def samplePlan : accessPolicyResourceModel :=
  { emptyModel with
    UserID := "u", Admin := some false,
    AllWorkspaces := ["viewer"], Workspaces := [("dev", ["operator", "editor"])] }

/-- The actual policy of the spec's end-to-end scenario. -/
def sampleState : accessPolicyResourceModel :=
  { emptyModel with
    UserID := "u", Admin := some true,
    AllWorkspaces := [], Workspaces := [("dev", ["editor"])] }

/-- A desired policy whose configuration omits `admin` (null `types.Bool`)
and declares one baseline role. -/
def sampleNullAdminPlan : accessPolicyResourceModel :=
  { emptyModel with UserID := "u", AllWorkspaces := ["viewer"] }

/-- An actual policy fetched from the backend: `GetFromTecton` always writes
a known admin value, here known `false`, with the same baseline role. -/
def sampleKnownFalseState : accessPolicyResourceModel :=
  { emptyModel with UserID := "u", Admin := some false, AllWorkspaces := ["viewer"] }

/-- A backend response of thirteen roles for one scope — one more than the
`maxInsertion = 12` bound below which `slices.SortFunc` runs its insertion
sort — with the unrecognized role `"zzz"` in front. -/
def sampleManyRoles : List String :=
  ["zzz", "viewer", "viewer", "owner", "viewer", "viewer", "viewer",
   "viewer", "viewer", "editor", "viewer", "viewer", "owner"]

/-- A sample backend that rejects exactly the `operator` grants. -/
def sampleOracle : Mutation → Bool := fun m => !(m.role == "operator")

/-! ## Helper lemmas -/

theorem mem_SliceDifference {a b : List String} {r : String} :
    r ∈ SliceDifference a b ↔ r ∈ a ∧ r ∉ b := by
  simp [SliceDifference, List.mem_filter]

theorem SliceDifference_eq_nil {a b : List String} (h : ∀ r ∈ a, r ∈ b) :
    SliceDifference a b = [] := by
  simp only [SliceDifference, List.filter_eq_nil_iff]
  intro x hx
  simp [h x hx]

theorem SliceDifference_nil_right (a : List String) : SliceDifference a [] = a := by
  simp [SliceDifference]

/-- C2: the per-scope diff is exact set difference: membership-wise
`to_grant = D \\ A` and `to_revoke = A \\ D`, with the boundary cases
`diff(X, X) = (emptyset, emptyset)`, `diff(X, emptyset) = (X, emptyset)` and
`diff(emptyset, X) = (emptyset, X)`. -/
theorem c2_diff_exact_set_difference (D A : List String) :
    (∀ r : String, r ∈ SliceDifference D A ↔ (r ∈ D ∧ r ∉ A)) ∧
    (∀ r : String, r ∈ SliceDifference A D ↔ (r ∈ A ∧ r ∉ D)) ∧
    (SliceDifference D D = [] ∧ SliceDifference A A = []) ∧
    (SliceDifference D [] = D ∧ SliceDifference [] D = []) ∧
    (SliceDifference [] A = [] ∧ SliceDifference A [] = A) := by
  refine ⟨fun r => mem_SliceDifference, fun r => mem_SliceDifference,
    ⟨SliceDifference_eq_nil fun r h => h, SliceDifference_eq_nil fun r h => h⟩,
    ⟨SliceDifference_nil_right D, rfl⟩,
    ⟨rfl, SliceDifference_nil_right A⟩⟩

/-- C5: when the fetch preceding `Create` reports that grants already exist,
`Create` fails with the Already Exists error and issues zero mutation calls
(in particular no `UpdateAccessPolicy` / `ModifyRole` call is reached). -/
theorem c5_creation_guard (plan : accessPolicyResourceModel)
    (policies : List tectonGetRolesPolicy)
    (h : (GetFromTecton (createFetchState plan) policies).2 = true) :
    Create plan policies = (CreateOutcome.alreadyExists, []) := by
  simp [Create, h]

/-- Witness for C5: the spec creation-guard scenario, a principal with one
existing grant in the scope of workspace `foo`. -/
theorem c5_creation_guard_witness :
    Create { emptyModel with UserID := "jane" }
      [⟨"WORKSPACE", "foo", [⟨"viewer", [⟨"DIRECT"⟩]⟩]⟩] =
      (CreateOutcome.alreadyExists, []) :=
  c5_creation_guard _ _ (by decide)

/-- Counterexample to C6 as stated: a backend response consisting of a single
policy entry with an empty `roles_granted` list contains zero grant records,
yet `GetFromTecton` reports `exists = true`, because the code tests
`len(policies) > 0`, counting policy entries rather than grant records. -/
theorem c6_counterexample :
    (GetFromTecton emptyModel [⟨"ORGANIZATION", "", []⟩]).2 = true ∧
    ([⟨"ORGANIZATION", "", []⟩] : List tectonGetRolesPolicy).flatMap
      tectonGetRolesPolicy.RolesGranted = [] := by
  exact ⟨by decide, rfl⟩

/-- C6 (amended): the `exists` flag returned by the state fetch is true iff
the backend reported at least one policy entry (scope block) for the
principal, even if that entry holds no granted role. -/
theorem c6_exists_flag_amended (state : accessPolicyResourceModel)
    (policies : List tectonGetRolesPolicy) :
    (GetFromTecton state policies).2 = true ↔ 0 < policies.length := by
  simp [GetFromTecton]

theorem roleFields_applyRoleGranted {a b : accessPolicyResourceModel}
    (t w : String) (rg : tectonGetRolesRoleGranted) (h : roleFields a = roleFields b) :
    roleFields (applyRoleGranted a t w rg) = roleFields (applyRoleGranted b t w rg) := by
  simp only [roleFields, Prod.mk.injEq] at h
  obtain ⟨h1, h2, h3⟩ := h
  simp only [applyRoleGranted, roleFields, h1, h2, h3]
  split_ifs <;> simp [h1, h2, h3]

theorem roleFields_applyPolicy {a b : accessPolicyResourceModel}
    (p : tectonGetRolesPolicy) (h : roleFields a = roleFields b) :
    roleFields (applyPolicy a p) = roleFields (applyPolicy b p) := by
  simp only [applyPolicy]
  induction p.RolesGranted generalizing a b with
  | nil => exact h
  | cons rg rest ih =>
    simp only [List.foldl_cons]
    exact ih (roleFields_applyRoleGranted _ _ rg h)

theorem roleFields_foldl {a b : accessPolicyResourceModel}
    (ps : List tectonGetRolesPolicy) (h : roleFields a = roleFields b) :
    roleFields (ps.foldl applyPolicy a) = roleFields (ps.foldl applyPolicy b) := by
  induction ps generalizing a b with
  | nil => exact h
  | cons p rest ih =>
    simp only [List.foldl_cons]
    exact ih (roleFields_applyPolicy p h)

/-- C10: the fetched actual policy is independent of the role state held
before the call. -/
theorem c10_fetch_independent_of_prior_roles
    (st1 st2 : accessPolicyResourceModel) (policies : List tectonGetRolesPolicy)
    (_huser : st1.UserID = st2.UserID) (_hsvc : st1.ServiceAccountID = st2.ServiceAccountID) :
    ((GetFromTecton st1 policies).1.Admin = (GetFromTecton st2 policies).1.Admin ∧
     (GetFromTecton st1 policies).1.AllWorkspaces = (GetFromTecton st2 policies).1.AllWorkspaces ∧
     (GetFromTecton st1 policies).1.Workspaces = (GetFromTecton st2 policies).1.Workspaces) ∧
    (GetFromTecton st1 policies).2 = (GetFromTecton st2 policies).2 := by
  have h := roleFields_foldl (a := { st1 with Admin := false, AllWorkspaces := [], Workspaces := [] })
    (b := { st2 with Admin := false, AllWorkspaces := [], Workspaces := [] }) policies rfl
  simp only [roleFields, Prod.mk.injEq] at h
  obtain ⟨h1, h2, h3⟩ := h
  simp [GetFromTecton, h1, h2, h3]

/-- Witness for C10: a state carrying stale role fields and a state with
empty role fields fetch to identical role fields on the same response. -/
theorem c10_fetch_independent_witness :
    ((GetFromTecton sampleStale sampleResponse).1.Admin =
       (GetFromTecton sampleFresh sampleResponse).1.Admin ∧
     (GetFromTecton sampleStale sampleResponse).1.AllWorkspaces =
       (GetFromTecton sampleFresh sampleResponse).1.AllWorkspaces ∧
     (GetFromTecton sampleStale sampleResponse).1.Workspaces =
       (GetFromTecton sampleFresh sampleResponse).1.Workspaces) ∧
    (GetFromTecton sampleStale sampleResponse).2 =
      (GetFromTecton sampleFresh sampleResponse).2 :=
  c10_fetch_independent_of_prior_roles sampleStale sampleFresh sampleResponse rfl rfl

theorem lookupRoles_of_nodup {m : List (String × List String)}
    (h : (m.map Prod.fst).Nodup) {p : String × List String} (hp : p ∈ m) :
    lookupRoles m p.1 = p.2 := by
  induction m with
  | nil => cases hp
  | cons q rest ih =>
    simp only [List.map_cons, List.nodup_cons] at h
    rcases List.mem_cons.mp hp with rfl | hmem
    · simp [lookupRoles]
    · have hne : (q.1 == p.1) = false := by
        have : p.1 ∈ rest.map Prod.fst := List.mem_map_of_mem Prod.fst hmem
        simp only [beq_eq_false_iff_ne, ne_eq]
        intro he
        exact h.1 (he ▸ this)
      have := ih h.2 hmem
      simpa [lookupRoles, hne] using this

theorem lookupRoles_eq_nil {m : List (String × List String)} {ws : String}
    (h : (m.any (fun q => q.1 == ws)) = false) :
    lookupRoles m ws = [] := by
  have : m.find? (fun p => p.1 == ws) = none := by
    rw [List.find?_eq_none]
    intro x hx
    simp only [List.any_eq_false] at h
    simp [h x hx]
  simp [lookupRoles, this]

theorem mem_lookupRoles {m : List (String × List String)} {ws r : String}
    (h : r ∈ lookupRoles m ws) : ∃ p ∈ m, r ∈ p.2 := by
  unfold lookupRoles at h
  cases hf : m.find? (fun p => p.1 == ws) with
  | none => rw [hf] at h; cases h
  | some p =>
    rw [hf] at h
    exact ⟨p, List.mem_of_find?_eq_some hf, h⟩

theorem UpdateWorkspace_eq_nil {u s ws : String} {D A : List String}
    (h1 : ∀ r ∈ D, r ∈ A) (h2 : ∀ r ∈ A, r ∈ D) :
    UpdateWorkspace u s ws D A = [] := by
  simp [UpdateWorkspace, SliceDifference_eq_nil h1, SliceDifference_eq_nil h2]

/-- Counterexample to C3 as stated: a desired policy whose configuration
omits `admin` (null `types.Bool`, spec-level admin flag `false`) against an
actual policy with known admin `false` and identical baseline and workspace
role sets — the spec-level policies are equal, yet the pass issues an
unassign-admin `ModifyRole` call, because line 539 compares the `types.Bool`
structs, which distinguishes null from known `false`. -/
theorem c3_counterexample :
    (sampleNullAdminPlan.Admin.getD false = sampleKnownFalseState.Admin.getD false ∧
     sampleNullAdminPlan.AllWorkspaces = sampleKnownFalseState.AllWorkspaces ∧
     sampleNullAdminPlan.Workspaces = sampleKnownFalseState.Workspaces) ∧
    UpdateAccessPolicy sampleNullAdminPlan sampleKnownFalseState =
      [⟨"u", "", "admin", "", false⟩] := by
  exact ⟨⟨rfl, rfl, rfl⟩, by decide⟩

/-- C3 (amended): reconciling a desired policy whose admin attribute is
equal to the actual policy's as a `types.Bool` value (same null-ness and
same value) and whose baseline and per-workspace role sets agree with the
actual policy issues zero mutation calls; value-level agreement alone does
not suffice, since a null desired admin differs from a known-false actual
admin. -/
theorem c3_idempotent_zero_mutations (plan state : accessPolicyResourceModel)
    (hAdmin : plan.Admin = state.Admin)
    (hAll : ∀ r : String, r ∈ plan.AllWorkspaces ↔ r ∈ state.AllWorkspaces)
    (hWs : ∀ ws r : String, r ∈ lookupRoles plan.Workspaces ws ↔ r ∈ lookupRoles state.Workspaces ws)
    (hpn : (plan.Workspaces.map Prod.fst).Nodup)
    (hsn : (state.Workspaces.map Prod.fst).Nodup) :
    UpdateAccessPolicy plan state = [] := by
  have hbase : UpdateWorkspace plan.UserID plan.ServiceAccountID ""
      plan.AllWorkspaces state.AllWorkspaces = [] :=
    UpdateWorkspace_eq_nil (fun r hr => (hAll r).mp hr) (fun r hr => (hAll r).mpr hr)
  have hloop1 : ∀ p ∈ plan.Workspaces,
      UpdateWorkspace plan.UserID plan.ServiceAccountID p.1 p.2
        (lookupRoles state.Workspaces p.1) = [] := by
    intro p hp
    have hlp : lookupRoles plan.Workspaces p.1 = p.2 := lookupRoles_of_nodup hpn hp
    refine UpdateWorkspace_eq_nil (fun r hr => ?_) (fun r hr => ?_)
    · exact (hWs p.1 r).mp (hlp ▸ hr)
    · exact hlp ▸ (hWs p.1 r).mpr hr
  have hloop2 : ∀ p ∈ state.Workspaces.filter
      (fun p => !(plan.Workspaces.any (fun q => q.1 == p.1))),
      UpdateWorkspace plan.UserID plan.ServiceAccountID p.1
        (lookupRoles plan.Workspaces p.1) p.2 = [] := by
    intro p hp
    rw [List.mem_filter] at hp
    obtain ⟨hmem, hcond⟩ := hp
    have hplan : lookupRoles plan.Workspaces p.1 = [] := by
      apply lookupRoles_eq_nil
      revert hcond
      cases plan.Workspaces.any (fun q => q.1 == p.1) <;> simp
    have hls : lookupRoles state.Workspaces p.1 = p.2 := lookupRoles_of_nodup hsn hmem
    refine UpdateWorkspace_eq_nil (fun r hr => ?_) (fun r hr => ?_)
    · rw [hplan] at hr; cases hr
    · have : r ∈ lookupRoles plan.Workspaces p.1 := (hWs p.1 r).mpr (hls ▸ hr)
      rw [hplan] at this; cases this
  simp only [UpdateAccessPolicy, hAdmin, bne_self_eq_false, Bool.false_eq_true, if_false,
    List.nil_append, hbase, List.append_eq_nil, List.flatMap_eq_nil_iff]
  exact ⟨hloop1, hloop2⟩

/-- Witness for C3: the end-to-end plan reconciled against itself issues
zero mutations. -/
theorem c3_idempotent_witness : UpdateAccessPolicy samplePlan samplePlan = [] :=
  c3_idempotent_zero_mutations samplePlan samplePlan rfl (fun _ => Iff.rfl)
    (fun _ _ => Iff.rfl) (by decide) (by decide)

theorem mem_UpdateWorkspace {u s ws : String} {D A : List String} {m : Mutation}
    (h : m ∈ UpdateWorkspace u s ws D A) :
    m.userID = u ∧ m.serviceAccountID = s ∧ m.workspace = ws ∧
    ((m.grant = true ∧ m.role ∈ D ∧ m.role ∉ A) ∨
     (m.grant = false ∧ m.role ∈ A ∧ m.role ∉ D)) := by
  rw [UpdateWorkspace, List.mem_append] at h
  rcases h with h | h <;> rw [List.mem_map] at h <;> obtain ⟨r, hr, rfl⟩ := h <;>
    rw [mem_SliceDifference] at hr
  · exact ⟨rfl, rfl, rfl, Or.inl ⟨rfl, hr⟩⟩
  · exact ⟨rfl, rfl, rfl, Or.inr ⟨rfl, hr⟩⟩

/-- Counterexample to C4 as stated: with a desired policy omitting `admin`
(spec-level admin flag `false`) and an actual policy with known admin
`false`, the flags do not differ at value level, yet the pass issues one
admin mutation — line 539 compares `types.Bool` structs, where null differs
from known `false`. -/
theorem c4_counterexample :
    sampleNullAdminPlan.Admin.getD false = sampleKnownFalseState.Admin.getD false ∧
    (UpdateAccessPolicy sampleNullAdminPlan sampleKnownFalseState).filter isAdminMutation =
      [⟨"u", "", "admin", "", false⟩] := by
  exact ⟨rfl, by decide⟩

/-- C4 (amended): the admin capability is toggled exactly when the desired
and actual admin attributes differ as `types.Bool` values (null differs from
known `false`): among the mutations of a pass, those targeting the unscoped
admin capability are exactly one grant/revoke of role `"admin"` on the empty
workspace with direction `desired.admin`'s known value (`false` when null)
when the attributes differ, and none otherwise. The hypotheses record that
`"admin"` is never an ordered role: the schema validator admits only
`validRoles` in role lists, and `GetFromTecton` routes `"admin"` into the
admin flag instead of a role list. -/
theorem c4_admin_toggled_exactly_on_difference
    (plan state : accessPolicyResourceModel)
    (h1 : "admin" ∉ plan.AllWorkspaces) (h2 : "admin" ∉ state.AllWorkspaces)
    (h3 : ∀ p ∈ plan.Workspaces, "admin" ∉ p.2)
    (h4 : ∀ p ∈ state.Workspaces, "admin" ∉ p.2) :
    (UpdateAccessPolicy plan state).filter isAdminMutation =
      if plan.Admin != state.Admin then
        [⟨plan.UserID, plan.ServiceAccountID, "admin", "", plan.Admin.getD false⟩]
      else [] := by
  have hrole : ∀ {ws r : String}, r ∈ lookupRoles plan.Workspaces ws → r ≠ "admin" := by
    intro ws r hr he
    obtain ⟨p, hp, hrp⟩ := mem_lookupRoles hr
    exact h3 p hp (he ▸ hrp)
  have hrole' : ∀ {ws r : String}, r ∈ lookupRoles state.Workspaces ws → r ≠ "admin" := by
    intro ws r hr he
    obtain ⟨p, hp, hrp⟩ := mem_lookupRoles hr
    exact h4 p hp (he ▸ hrp)
  have hbase : (UpdateWorkspace plan.UserID plan.ServiceAccountID ""
      plan.AllWorkspaces state.AllWorkspaces).filter isAdminMutation = [] := by
    rw [List.filter_eq_nil_iff]
    intro m hm
    obtain ⟨-, -, -, hcase⟩ := mem_UpdateWorkspace hm
    rcases hcase with ⟨-, hmem, -⟩ | ⟨-, hmem, -⟩
    · have : m.role ≠ "admin" := fun he => h1 (he ▸ hmem)
      simp [isAdminMutation, this]
    · have : m.role ≠ "admin" := fun he => h2 (he ▸ hmem)
      simp [isAdminMutation, this]
  have hloop1 : ((plan.Workspaces.flatMap fun p =>
      UpdateWorkspace plan.UserID plan.ServiceAccountID p.1 p.2
        (lookupRoles state.Workspaces p.1))).filter isAdminMutation = [] := by
    rw [List.filter_eq_nil_iff]
    intro m hm
    rw [List.mem_flatMap] at hm
    obtain ⟨p, hp, hm⟩ := hm
    obtain ⟨-, -, -, hcase⟩ := mem_UpdateWorkspace hm
    rcases hcase with ⟨-, hmem, -⟩ | ⟨-, hmem, -⟩
    · have : m.role ≠ "admin" := fun he => h3 p hp (he ▸ hmem)
      simp [isAdminMutation, this]
    · have : m.role ≠ "admin" := hrole' hmem
      simp [isAdminMutation, this]
  have hloop2 : (((state.Workspaces.filter
      (fun p => !(plan.Workspaces.any (fun q => q.1 == p.1)))).flatMap fun p =>
      UpdateWorkspace plan.UserID plan.ServiceAccountID p.1
        (lookupRoles plan.Workspaces p.1) p.2)).filter isAdminMutation = [] := by
    rw [List.filter_eq_nil_iff]
    intro m hm
    rw [List.mem_flatMap] at hm
    obtain ⟨p, hp, hm⟩ := hm
    rw [List.mem_filter] at hp
    obtain ⟨-, -, -, hcase⟩ := mem_UpdateWorkspace hm
    rcases hcase with ⟨-, hmem, -⟩ | ⟨-, hmem, -⟩
    · have : m.role ≠ "admin" := hrole hmem
      simp [isAdminMutation, this]
    · have : m.role ≠ "admin" := fun he => h4 p hp.1 (he ▸ hmem)
      simp [isAdminMutation, this]
  rw [UpdateAccessPolicy]
  rw [List.filter_append, List.filter_append, List.filter_append]
  rw [hbase, hloop1, hloop2]
  simp only [List.append_nil]
  split_ifs with hif
  · simp [isAdminMutation]
  · simp

/-- Witness for C4: the end-to-end scenario (desired admin `false`, actual
admin `true`) issues exactly one admin mutation, turning admin off. -/
theorem c4_admin_toggled_witness :
    (UpdateAccessPolicy samplePlan sampleState).filter isAdminMutation =
      if samplePlan.Admin != sampleState.Admin then
        [⟨samplePlan.UserID, samplePlan.ServiceAccountID, "admin", "", samplePlan.Admin.getD false⟩]
      else [] :=
  c4_admin_toggled_exactly_on_difference samplePlan sampleState
    (by decide) (by decide) (by decide) (by decide)

theorem flatMap_congr {α β : Type} {l : List α} {f g : α → List β}
    (h : ∀ a ∈ l, f a = g a) : l.flatMap f = l.flatMap g := by
  induction l with
  | nil => rfl
  | cons x xs ih =>
    simp only [List.flatMap_cons]
    rw [h x (List.mem_cons_self x xs), ih (fun a ha => h a (List.mem_cons_of_mem x ha))]

/-- C7: scope processing order — the mutation sequence of a pass is the
admin toggle, then the baseline (`all_workspaces`) scope, then every
workspace of the desired map in order, then every workspace present only in
the actual map; the actual-only workspaces are processed revoke-only: their
grant list is empty and the pass revokes exactly the roles they still hold,
never granting there. -/
theorem c7_scope_processing_order (plan state : accessPolicyResourceModel) :
    UpdateAccessPolicy plan state =
      (if plan.Admin != state.Admin then
        [⟨plan.UserID, plan.ServiceAccountID, "admin", "", plan.Admin.getD false⟩]
      else [])
      ++ UpdateWorkspace plan.UserID plan.ServiceAccountID ""
          plan.AllWorkspaces state.AllWorkspaces
      ++ plan.Workspaces.flatMap (fun p =>
          UpdateWorkspace plan.UserID plan.ServiceAccountID p.1 p.2
            (lookupRoles state.Workspaces p.1))
      ++ (state.Workspaces.filter
            (fun p => !(plan.Workspaces.any (fun q => q.1 == p.1)))).flatMap (fun p =>
          p.2.map (fun role => ⟨plan.UserID, plan.ServiceAccountID, role, p.1, false⟩)) ∧
    ((state.Workspaces.filter
        (fun p => !(plan.Workspaces.any (fun q => q.1 == p.1)))).flatMap (fun p =>
        UpdateWorkspace plan.UserID plan.ServiceAccountID p.1
          (lookupRoles plan.Workspaces p.1) p.2)).all
      (fun m => m.grant == false) = true := by
  have hkey : ∀ p ∈ state.Workspaces.filter
      (fun p => !(plan.Workspaces.any (fun q => q.1 == p.1))),
      lookupRoles plan.Workspaces p.1 = [] := by
    intro p hp
    rw [List.mem_filter] at hp
    apply lookupRoles_eq_nil
    have := hp.2
    revert this
    cases plan.Workspaces.any (fun q => q.1 == p.1) <;> simp
  have hrw : ∀ p ∈ state.Workspaces.filter
      (fun p => !(plan.Workspaces.any (fun q => q.1 == p.1))),
      UpdateWorkspace plan.UserID plan.ServiceAccountID p.1
        (lookupRoles plan.Workspaces p.1) p.2 =
      p.2.map (fun role => ⟨plan.UserID, plan.ServiceAccountID, role, p.1, false⟩) := by
    intro p hp
    rw [UpdateWorkspace, hkey p hp]
    simp [SliceDifference_nil_right, SliceDifference]
  constructor
  · rw [UpdateAccessPolicy, flatMap_congr hrw]
  · rw [List.all_eq_true]
    intro m hm
    rw [List.mem_flatMap] at hm
    obtain ⟨p, hp, hm⟩ := hm
    rw [hrw p hp, List.mem_map] at hm
    obtain ⟨r, hr, rfl⟩ := hm
    rfl

theorem applyMutation_invariant {D A held : List String} {m : Mutation}
    (hg : m.grant = true → m.role ∈ D) (hr : m.grant = false → m.role ∉ D)
    (hlow : ∀ r : String, r ∈ D → r ∈ A → r ∈ held)
    (hhigh : ∀ r : String, r ∈ held → r ∈ D ∨ r ∈ A) :
    (∀ r : String, r ∈ D → r ∈ A → r ∈ applyMutation held m) ∧
    (∀ r : String, r ∈ applyMutation held m → r ∈ D ∨ r ∈ A) := by
  rw [applyMutation]
  cases hm : m.grant with
  | true =>
    simp only [if_true]
    split_ifs with hc
    · exact ⟨hlow, hhigh⟩
    · constructor
      · intro r h1 h2
        exact List.mem_append_left _ (hlow r h1 h2)
      · intro r h
        rcases List.mem_append.mp h with h | h
        · exact hhigh r h
        · rw [List.mem_singleton] at h
          exact Or.inl (h ▸ hg hm)
  | false =>
    simp only [Bool.false_eq_true, if_false]
    constructor
    · intro r h1 h2
      rw [List.mem_filter]
      refine ⟨hlow r h1 h2, ?_⟩
      have : r ≠ m.role := fun he => hr hm (he ▸ h1)
      simp [this]
    · intro r h
      exact hhigh r (List.mem_filter.mp h).1

theorem applyMutations_invariant {D A : List String} (p : List Mutation)
    (hcond : ∀ m ∈ p, (m.grant = true → m.role ∈ D) ∧ (m.grant = false → m.role ∉ D))
    (held : List String)
    (hlow : ∀ r : String, r ∈ D → r ∈ A → r ∈ held)
    (hhigh : ∀ r : String, r ∈ held → r ∈ D ∨ r ∈ A) :
    (∀ r : String, r ∈ D → r ∈ A → r ∈ applyMutations held p) ∧
    (∀ r : String, r ∈ applyMutations held p → r ∈ D ∨ r ∈ A) := by
  induction p generalizing held with
  | nil => exact ⟨hlow, hhigh⟩
  | cons m ms ih =>
    have hm := hcond m (List.mem_cons_self m ms)
    have step := applyMutation_invariant (A := A) hm.1 hm.2 hlow hhigh
    exact ih (fun x hx => hcond x (List.mem_cons_of_mem m hx)) (applyMutation held m)
      step.1 step.2

/-- C1: per-scope mutations are applied grant-before-revoke — the sequence
is all grants of `to_grant` followed by all revokes of `to_revoke` — and
after any prefix of that sequence the role set held for the scope is a
superset of `desired ∩ actual_before` and a subset of
`desired ∪ actual_before`. -/
theorem c1_grant_before_revoke_no_gap (u s ws : String) (D A : List String)
    (p : List Mutation) (hp : p <+: UpdateWorkspace u s ws D A) :
    UpdateWorkspace u s ws D A =
      (SliceDifference D A).map (fun role => ⟨u, s, role, ws, true⟩)
      ++ (SliceDifference A D).map (fun role => ⟨u, s, role, ws, false⟩) ∧
    (∀ r : String, r ∈ D → r ∈ A → r ∈ applyMutations A p) ∧
    (∀ r : String, r ∈ applyMutations A p → r ∈ D ∨ r ∈ A) := by
  refine ⟨rfl, ?_⟩
  have hcond : ∀ m ∈ p, (m.grant = true → m.role ∈ D) ∧ (m.grant = false → m.role ∉ D) := by
    intro m hm
    have hmem := hp.subset hm
    obtain ⟨-, -, -, hcase⟩ := mem_UpdateWorkspace hmem
    rcases hcase with ⟨hg, hin, -⟩ | ⟨hg, -, hout⟩
    · constructor
      · intro _; exact hin
      · intro hfalse; rw [hg] at hfalse; cases hfalse
    · constructor
      · intro htrue; rw [hg] at htrue; cases htrue
      · intro _; exact hout
  exact applyMutations_invariant p hcond A (fun r _ h => h) (fun r h => Or.inr h)

/-- Witness for C1: in the end-to-end scenario's `dev` scope (desired
`[operator, editor]`, actual `[editor]`), after the prefix holding only the
`operator` grant the held set still contains the intersection `editor` and
nothing outside the union. -/
theorem c1_grant_before_revoke_witness :
    UpdateWorkspace "u" "" "dev" ["operator", "editor"] ["editor"] =
      (SliceDifference ["operator", "editor"] ["editor"]).map
        (fun role => ⟨"u", "", role, "dev", true⟩)
      ++ (SliceDifference ["editor"] ["operator", "editor"]).map
        (fun role => ⟨"u", "", role, "dev", false⟩) ∧
    (∀ r : String, r ∈ (["operator", "editor"] : List String) →
      r ∈ (["editor"] : List String) →
      r ∈ applyMutations ["editor"] [⟨"u", "", "operator", "dev", true⟩]) ∧
    (∀ r : String, r ∈ applyMutations ["editor"] [⟨"u", "", "operator", "dev", true⟩] →
      r ∈ (["operator", "editor"] : List String) ∨ r ∈ (["editor"] : List String)) :=
  c1_grant_before_revoke_no_gap "u" "" "dev" ["operator", "editor"] ["editor"]
    [⟨"u", "", "operator", "dev", true⟩] ⟨[], by decide⟩

theorem runMutations_append (ok : Mutation → Bool) (a b : List Mutation) :
    runMutations ok (a ++ b) = seqRun (runMutations ok a) (runMutations ok b) := by
  induction a with
  | nil => simp [runMutations, seqRun]
  | cons m ms ih =>
    by_cases hok : ok m = true
    · simp only [List.cons_append, runMutations, hok, if_true, ih]
      cases h : (runMutations ok ms).2 <;> simp [seqRun, h, ih]
    · simp [runMutations, hok, seqRun]

theorem runRoles_eq (ok : Mutation → Bool) (u s ws : String) (g : Bool)
    (roles : List String) :
    runRoles ok u s ws g roles =
      runMutations ok (roles.map (fun role => ⟨u, s, role, ws, g⟩)) := by
  induction roles with
  | nil => rfl
  | cons role rest ih =>
    by_cases hok : ok ⟨u, s, role, ws, g⟩ = true <;>
      simp [runRoles, ModifyRoleRun, runMutations, hok, ih, seqRun]

theorem UpdateWorkspaceRun_eq (ok : Mutation → Bool) (u s ws : String)
    (D A : List String) :
    UpdateWorkspaceRun ok u s ws D A = runMutations ok (UpdateWorkspace u s ws D A) := by
  rw [UpdateWorkspaceRun, UpdateWorkspace, runMutations_append, runRoles_eq, runRoles_eq]

theorem runScopes_eq (ok : Mutation → Bool) (u s : String)
    (ts : List (String × List String × List String)) :
    runScopes ok u s ts =
      runMutations ok (ts.flatMap (fun t => UpdateWorkspace u s t.1 t.2.1 t.2.2)) := by
  induction ts with
  | nil => rfl
  | cons t rest ih =>
    obtain ⟨ws, pr, sr⟩ := t
    rw [runScopes, List.flatMap_cons, runMutations_append, UpdateWorkspaceRun_eq, ih]

theorem seqRun_assoc (r1 r2 r3 : List Mutation × Option Mutation) :
    seqRun (seqRun r1 r2) r3 = seqRun r1 (seqRun r2 r3) := by
  rcases r1 with ⟨t1, e1⟩
  cases e1 with
  | some e => simp [seqRun]
  | none =>
    cases h2 : r2.2 with
    | some e => simp [seqRun, h2]
    | none =>
      cases h3 : r3.2 with
      | some e => simp [seqRun, h2, h3]
      | none => simp [seqRun, h2, h3]

theorem UpdateAccessPolicyRun_eq (ok : Mutation → Bool)
    (plan state : accessPolicyResourceModel) :
    UpdateAccessPolicyRun ok plan state = runMutations ok (UpdateAccessPolicy plan state) := by
  have hadmin : (if plan.Admin != state.Admin then
      ModifyRoleRun ok plan.UserID plan.ServiceAccountID "admin" "" (plan.Admin.getD false)
    else ([], none)) =
      runMutations ok (if plan.Admin != state.Admin then
        ([⟨plan.UserID, plan.ServiceAccountID, "admin", "", plan.Admin.getD false⟩] : List Mutation)
      else []) := by
    split_ifs with h
    · by_cases hok : ok ⟨plan.UserID, plan.ServiceAccountID, "admin", "", plan.Admin.getD false⟩ = true <;>
        simp [ModifyRoleRun, runMutations, hok]
    · rfl
  rw [UpdateAccessPolicyRun, UpdateAccessPolicy, hadmin, runMutations_append,
    runMutations_append, runMutations_append, UpdateWorkspaceRun_eq, runScopes_eq,
    runScopes_eq, List.flatMap_map, List.flatMap_map, seqRun_assoc, seqRun_assoc]

theorem runMutations_some {ok : Mutation → Bool} {l : List Mutation} {e : Mutation}
    (h : (runMutations ok l).2 = some e) :
    ∃ pre suf, l = pre ++ e :: suf ∧ (runMutations ok l).1 = pre ++ [e] ∧
      (∀ m ∈ pre, ok m = true) ∧ ok e = false := by
  induction l with
  | nil => cases h
  | cons m ms ih =>
    by_cases hok : ok m = true
    · rw [runMutations] at h ⊢
      simp only [hok, if_true] at h ⊢
      obtain ⟨pre, suf, hl, ht, hpre, he⟩ := ih h
      refine ⟨m :: pre, suf, by rw [List.cons_append, ← hl], by rw [List.cons_append, ht], ?_, he⟩
      intro x hx
      rcases List.mem_cons.mp hx with rfl | hx
      · exact hok
      · exact hpre x hx
    · rw [runMutations] at h ⊢
      simp only [hok, if_false] at h ⊢
      injection h with h
      subst h
      exact ⟨[], ms, rfl, rfl, fun x hx => absurd hx (List.not_mem_nil x), by simpa using hok⟩

/-- C9: on mutation failure the pass aborts immediately and surfaces the
error: when some `ModifyRole` call fails, `UpdateAccessPolicy` returns that
error, every call attempted before it succeeded, no call is attempted after
it, and nothing already applied is rolled back — the attempted calls are
exactly a prefix of the planned mutation sequence ending at the failing
call, with no compensating mutation. -/
theorem c9_abort_on_failure (ok : Mutation → Bool) (plan state : accessPolicyResourceModel)
    (e : Mutation) (h : (UpdateAccessPolicyRun ok plan state).2 = some e) :
    ok e = false ∧
    ∃ pre suf, UpdateAccessPolicy plan state = pre ++ e :: suf ∧
      (UpdateAccessPolicyRun ok plan state).1 = pre ++ [e] ∧
      ∀ m ∈ pre, ok m = true := by
  rw [UpdateAccessPolicyRun_eq] at h ⊢
  obtain ⟨pre, suf, hl, ht, hpre, he⟩ := runMutations_some h
  exact ⟨he, pre, suf, hl, ht, hpre⟩

/-- Witness for C9: in the end-to-end scenario against a backend rejecting
`operator` grants, the pass attempts the admin toggle, the baseline viewer
grant, then fails on the `operator` grant and stops. -/
theorem c9_abort_on_failure_witness :
    sampleOracle ⟨"u", "", "operator", "dev", true⟩ = false ∧
    ∃ pre suf, UpdateAccessPolicy samplePlan sampleState =
        pre ++ (⟨"u", "", "operator", "dev", true⟩ : Mutation) :: suf ∧
      (UpdateAccessPolicyRun sampleOracle samplePlan sampleState).1 =
        pre ++ [(⟨"u", "", "operator", "dev", true⟩ : Mutation)] ∧
      ∀ m ∈ pre, sampleOracle m = true :=
  c9_abort_on_failure sampleOracle samplePlan sampleState _ (by decide)

theorem cmpRoles_of_unrec_left {x : String} (y : String) (h : roleToLevel x = none) :
    cmpRoles x y = 0 := by
  cases hy : roleToLevel y <;> simp [cmpRoles, h, hy]

theorem cmpRoles_of_unrec_right {y : String} (x : String) (h : roleToLevel y = none) :
    cmpRoles x y = 0 := by
  cases hx : roleToLevel x <;> simp [cmpRoles, h, hx]

theorem cmpRoles_lt_rec {x y : String} (h : cmpRoles x y < 0) :
    roleToLevel x ≠ none ∧ roleToLevel y ≠ none := by
  constructor <;> intro hn
  · rw [cmpRoles_of_unrec_left y hn] at h
    omega
  · rw [cmpRoles_of_unrec_right x hn] at h
    omega

theorem dswap_length (data : List String) (i j : Nat) :
    (dswap data i j).length = data.length := by
  simp [dswap]

theorem getElem?_dswap_ne {data : List String} {i j k : Nat}
    (hik : k ≠ i) (hjk : k ≠ j) : (dswap data i j)[k]? = data[k]? := by
  rw [dswap, List.getElem?_set_ne (by omega), List.getElem?_set_ne (by omega)]

theorem insertionSortInner_getElem? {data : List String} {j a k : Nat} {r : String}
    (hk : data[k]? = some r) (hr : roleToLevel r = none) :
    (insertionSortInner data j a)[k]? = some r := by
  induction j generalizing data with
  | zero => exact hk
  | succ j ih =>
    rw [insertionSortInner]
    split_ifs with hc
    · have hrec := cmpRoles_lt_rec hc.2
      have hkj1 : k ≠ j + 1 := by
        intro he
        have hd : dget data (j+1) = r := by rw [dget, ← he, hk]; rfl
        exact hrec.1 (hd ▸ hr)
      have hkj : k ≠ j := by
        intro he
        have hd : dget data j = r := by rw [dget, ← he, hk]; rfl
        exact hrec.2 (hd ▸ hr)
      apply ih
      rw [getElem?_dswap_ne hkj1 hkj]
      exact hk
    · exact hk

theorem insertionSortInner_length (data : List String) (j a : Nat) :
    (insertionSortInner data j a).length = data.length := by
  induction j generalizing data with
  | zero => rfl
  | succ j ih =>
    rw [insertionSortInner]
    split_ifs
    · rw [ih, dswap_length]
    · rfl

theorem insertionSortLoop_getElem? {data : List String} {a b i fuel k : Nat} {r : String}
    (hk : data[k]? = some r) (hr : roleToLevel r = none) :
    (insertionSortLoop data a b i fuel)[k]? = some r := by
  induction fuel generalizing data i with
  | zero => exact hk
  | succ fuel ih =>
    rw [insertionSortLoop]
    split_ifs
    · exact ih (insertionSortInner_getElem? hk hr)
    · exact hk

theorem insertionSortLoop_length (data : List String) (a b i fuel : Nat) :
    (insertionSortLoop data a b i fuel).length = data.length := by
  induction fuel generalizing data i with
  | zero => rfl
  | succ fuel ih =>
    rw [insertionSortLoop]
    split_ifs
    · rw [ih, insertionSortInner_length]
    · rfl

/-- For ranges of at most `maxInsertion = 12` elements `pdqsortCmpFunc`
immediately runs its insertion sort, so `slices.SortFunc` on a short role
list is exactly `insertionSortCmpFunc`. -/
theorem sortRoles_short {l : List String} (h : l.length ≤ 12) :
    sortRoles l = insertionSortCmpFunc l 0 l.length := by
  rw [sortRoles, pdqsortCmpFunc]
  exact if_pos (by omega)

set_option maxRecDepth 8192

/-- Counterexample to C8 as stated: the sort is not stable at every length.
On a thirteen-element role list — one beyond the insertion-sort bound of
`slices.SortFunc`'s pdqsort — the unrecognized role `"zzz"`, initially in
front of every `"viewer"`, is carried to index 10 by the pivot and partition
swaps, behind all of them: it retains neither its absolute nor its relative
position. -/
theorem c8_counterexample :
    roleToLevel "zzz" = none ∧
    sampleManyRoles[0]? = some "zzz" ∧
    sortRoles sampleManyRoles =
      ["viewer", "viewer", "viewer", "viewer", "viewer", "viewer", "viewer",
       "viewer", "viewer", "editor", "zzz", "owner", "owner"] ∧
    (sortRoles sampleManyRoles)[0]? ≠ some "zzz" := by
  refine ⟨by decide, rfl, by decide, by decide⟩

/-- C8 (amended): the role comparison orders the four canonical roles by
increasing power (sorting `[owner, viewer, editor]` yields
`[viewer, editor, owner]`) and an unrecognized role compares as equal to
every role; on every role list of at most 12 roles — where
`slices.SortFunc` executes its stable insertion sort — the sort preserves
length and leaves an unrecognized role at its original position (in
particular its relative position is unchanged). On longer lists the
library's pdqsort gives no such guarantee. -/
theorem c8_role_sort_amended :
    sortRoles ["owner", "viewer", "editor"] = ["viewer", "editor", "owner"] ∧
    (∀ r s : String, roleToLevel r = none → cmpRoles r s = 0 ∧ cmpRoles s r = 0) ∧
    (∀ l : List String, l.length ≤ 12 →
      (sortRoles l).length = l.length ∧
      ∀ (i : Nat) (r : String), l[i]? = some r → roleToLevel r = none →
        (sortRoles l)[i]? = some r) := by
  refine ⟨by decide,
    fun r s h => ⟨cmpRoles_of_unrec_left s h, cmpRoles_of_unrec_right s h⟩,
    fun l h => ⟨?_, fun i r hi hr => ?_⟩⟩
  · rw [sortRoles_short h, insertionSortCmpFunc, insertionSortLoop_length]
  · rw [sortRoles_short h, insertionSortCmpFunc]
    exact insertionSortLoop_getElem? hi hr

/-- Witness for C8 (amended): `"foo"` is unrecognized, compares equal to
`"owner"` both ways, and on the three-element list `[owner, foo, viewer]`
the sort preserves length and keeps `"foo"` at index 1. -/
theorem c8_role_sort_witness :
    (cmpRoles "foo" "owner" = 0 ∧ cmpRoles "owner" "foo" = 0) ∧
    (sortRoles ["owner", "foo", "viewer"]).length =
      (["owner", "foo", "viewer"] : List String).length ∧
    (sortRoles ["owner", "foo", "viewer"])[1]? = some "foo" :=
  ⟨c8_role_sort_amended.2.1 "foo" "owner" (by decide),
   (c8_role_sort_amended.2.2 ["owner", "foo", "viewer"] (by decide)).1,
   (c8_role_sort_amended.2.2 ["owner", "foo", "viewer"] (by decide)).2 1 "foo" rfl
     (by decide)⟩
